import Mathlib

/-!
Shallow embedding of the baseline program recommender
(`SourceCode/baseline_recommender.py`, driver `SourceCode/Baseline.py`).

Tables are modelled after pandas DataFrames at the point the engine consumes
them: identifier and status cells are strings (the code always goes through
`.astype(str)` before using them), and competency cells are `Option ℚ`, where
`none` stands for a missing or non-numeric cell (which
`pd.to_numeric(errors='coerce').fillna(0)` turns into `0`).  Float arithmetic
is modelled by exact rational arithmetic.
-/

namespace SMData

/-- Character-list version of Python's startswith: the first list is a prefix
of the second. -/
def startsWithChars : List Char → List Char → Bool
  | [], _ => true
  | _ :: _, [] => false
  | a :: as, b :: bs => a == b && startsWithChars as bs

/-- Occurrence of a contiguous character sequence inside another. -/
def occursIn (needle : List Char) : List Char → Bool
  | [] => startsWithChars needle []
  | b :: bs => startsWithChars needle (b :: bs) || occursIn needle bs

/-- Python's substring test `needle in hay` on strings. -/
def strContains (hay needle : String) : Bool :=
  occursIn needle.data hay.data

/-- The completion marker token of the source: a history row counts as
completed when its status text contains this token. -/
def completionMarker : String := "이수"

/-- Status text classifies a row as completed:
`df_s[completion_col].astype(str).str.contains('이수', na=False)`. -/
def hasMarker (status : String) : Bool := strContains status completionMarker

/-- Column resolver `_find_col(cols, candidates)` of `baseline_recommender.py`:
the outer loop runs over the candidate list, the inner loop over the table's
columns, and the first column containing the current candidate is returned. -/
def findCol (cols : List String) : List String → Option String
  | [] => none
  | c :: cs =>
    match cols.find? (fun col => strContains col c) with
    | some col => some col
    | none => findCol cols cs

/-- The resolver as the specification describes it: the first column in
TABLE order whose name contains any candidate, candidate order only breaking
ties within one column.  This is also the behaviour of the separate student-id
lookup in `Baseline.py` (a generator over `history_df.columns` guarded by
`any(key in str(c).strip() ...)`). -/
def findColSpec (cols cands : List String) : Option String :=
  cols.find? (fun col => cands.any (fun c => strContains col c))

/-- The student-id column lookup of `Baseline.py` (lines 62-63), which scans
the table's columns in order and strips whitespace before testing
containment. -/
def studentIdColBaseline (cols cands : List String) : Option String :=
  cols.find? (fun col => cands.any (fun key => strContains col.trim key))

/-- A parsed competency cell: `some q` for a numeric value, `none` for a
missing or non-numeric entry. -/
abbrev Cell := Option ℚ

/-- Numeric coercion `pd.to_numeric(errors='coerce').fillna(0)` on one cell. -/
def coerceCell (c : Cell) : ℚ := c.getD 0

/-- One row of the history table, with the resolved student-id, program-id and
completion-status columns already string-coerced, and the competency columns
as an association list. -/
structure HistRow where
  sid : String
  programId : String
  status : String
  comps : List (String × Cell)
deriving DecidableEq, Repr

/-- The history table after column resolution: `hasCompletionCol` records
whether `_detect_columns` resolved a completion-status column, and `compCols`
is the resolved competency column list (the columns starting with the domain
marker prefix). -/
structure HistTable where
  hasCompletionCol : Bool
  compCols : List String
  rows : List HistRow
deriving DecidableEq, Repr

/-- One row of the catalog (programs) table. -/
structure ProgRow where
  pid : String
  comps : List (String × Cell)
deriving DecidableEq, Repr

/-- The catalog table after column resolution. -/
structure ProgTable where
  compCols : List String
  rows : List ProgRow
deriving DecidableEq, Repr

/-- Value of one competency cell of a row, after numeric coercion; a column
absent from the row behaves like a missing cell. -/
def cellVal (comps : List (String × Cell)) (c : String) : ℚ :=
  coerceCell ((comps.lookup c).getD none)

/-- Sum of the second components, modelling `.sum()` over a Series. -/
def sndSum (w : List (String × ℚ)) : ℚ := (w.map Prod.snd).sum

/-- Mean of a level series, `student_levels.mean() if len(student_levels) else 0.0`. -/
def meanLevels (levels : List (String × ℚ)) : ℚ :=
  if levels.length = 0 then 0 else sndSum levels / levels.length

/-- Raw mean-relative weights `(mu - student_levels).clip(lower=0)`. -/
def rawMeanWeights (levels : List (String × ℚ)) : List (String × ℚ) :=
  levels.map (fun cv => (cv.1, max 0 (meanLevels levels - cv.2)))

/-- Uniform rewrite `w[:] = 1.0` used by the flat-profile fallback. -/
def uniformOnes (levels : List (String × ℚ)) : List (String × ℚ) :=
  levels.map (fun cv => (cv.1, (1 : ℚ)))

/-- Need-weight policy `_need_weights_from_mean`: clipped distance below the
learner's own mean, replaced by the uniform vector when the weights sum to
zero and the series is non-empty. -/
def needWeightsFromMean (levels : List (String × ℚ)) : List (String × ℚ) :=
  let w := rawMeanWeights levels
  if sndSum w = 0 ∧ 0 < levels.length then uniformOnes levels else w

/-- Raw target-relative weights `(target - student_levels).clip(lower=0)`. -/
def rawTargetWeights (levels : List (String × ℚ)) (target : ℚ) :
    List (String × ℚ) :=
  levels.map (fun cv => (cv.1, max 0 (target - cv.2)))

/-- Need-weight policy `_need_weights_from_targets`, with the same uniform
fallback as the mean-relative policy. -/
def needWeightsFromTargets (levels : List (String × ℚ)) (target : ℚ) :
    List (String × ℚ) :=
  let w := rawTargetWeights levels target
  if sndSum w = 0 ∧ 0 < levels.length then uniformOnes levels else w

/-- Error taxonomy of the engine; the source raises `ValueError` with
distinct messages. -/
inductive RecError where
  | studentIdColMissing
  | competencyColsMissing
  | emptyIntersection
  | programIdColMissing
deriving DecidableEq, Repr

/-- The learner's rows:
`history_df[history_df[student_id_col].astype(str)==str(student_id)]`. -/
def learnerRows (h : HistTable) (sid : String) : List HistRow :=
  h.rows.filter (fun r => r.sid == sid)

/-- Rows kept by the completion filter of `build_student_profile`
(lines 95-98): when a completion column is resolved, restrict to rows whose
status contains the marker, unless that restriction keeps no row at all, in
which case all of the learner's rows are kept. -/
def qualifyingRows (h : HistTable) (dfs : List HistRow) : List HistRow :=
  if h.hasCompletionCol then
    let m := dfs.filter (fun r => hasMarker r.status)
    if m.isEmpty then dfs else m
  else dfs

/-- Row-wise sum of the competency columns over a set of rows:
`df_s[competency_cols].apply(pd.to_numeric, errors='coerce').fillna(0).sum(axis=0)`. -/
def sumComps (rows : List HistRow) (compCols : List String) :
    List (String × ℚ) :=
  compCols.map (fun c => (c, (rows.map (fun r => cellVal r.comps c)).sum))

/-- The all-zero competency vector over a keyspace. -/
def zeroProfile (compCols : List String) : List (String × ℚ) :=
  compCols.map (fun c => (c, (0 : ℚ)))

/-- Body of `build_student_profile` after its argument checks. -/
def profileFor (h : HistTable) (sid : String) (compCols : List String) :
    List (String × ℚ) :=
  let dfs := learnerRows h sid
  if dfs.isEmpty then zeroProfile compCols
  else sumComps (qualifyingRows h dfs) compCols

/-- `build_student_profile`: the learner's accumulated competency levels.
The student-id column is part of the typed model, so only the empty
competency-column check of the source can fail here. -/
def buildStudentProfile (h : HistTable) (sid : String)
    (compCols : List String) : Except RecError (List (String × ℚ)) :=
  if compCols.isEmpty then .error .competencyColsMissing
  else .ok (profileFor h sid compCols)

/-- Intersection of catalog and history competency columns, in catalog order:
`[c for c in comp_cols_prog if c in set(comp_cols_hist)]`. -/
def sharedComps (p : ProgTable) (h : HistTable) : List String :=
  p.compCols.filter (fun c => h.compCols.contains c)

/-- The learner's completed program ids (lines 134-140): when a completion
column is resolved, the program ids of the learner's rows whose status
contains the marker; otherwise the empty set.  The source stores these in a
`set`, used only for membership, so a list with the same members is kept. -/
def takenProgIds (h : HistTable) (sid : String) : List String :=
  if h.hasCompletionCol then
    ((learnerRows h sid).filter (fun r => hasMarker r.status)).map
      (fun r => r.programId)
  else []

/-- One row of the scoring table: program id, total score and the
per-competency contributions `contrib::<c>`. -/
structure ScoredRow where
  pid : String
  score : ℚ
  contribs : List (String × ℚ)
deriving DecidableEq, Repr

/-- Score one catalog row: per-competency contribution
`program_contrib * need_weight`, total score the sum of the contributions. -/
def scoreRow (compCols : List String) (w : List (String × ℚ))
    (r : ProgRow) : ScoredRow :=
  let contribs := compCols.map
    (fun c => (c, cellVal r.comps c * ((w.lookup c).getD 0)))
  ⟨r.pid, sndSum contribs, contribs⟩

/-- The scored catalog, one output row per catalog row, in catalog order. -/
def scoredRows (p : ProgTable) (compCols : List String)
    (w : List (String × ℚ)) : List ScoredRow :=
  p.rows.map (scoreRow compCols w)

/-- Exclusion step (lines 160-162): `if taken_prog_ids:` drop the rows whose
program id is in the completed set; an empty set is falsy, so nothing is
dropped. -/
def excludeTaken (taken : List String) (rows : List ScoredRow) :
    List ScoredRow :=
  if taken.isEmpty then rows
  else rows.filter (fun r => !(taken.contains r.pid))

/-- Descending comparator on the score column. -/
def scoreLe (a b : ScoredRow) : Bool := decide (b.score ≤ a.score)

/-- The ranking step `out.sort_values('score', ascending=False)`.  For a
single descending key pandas `nargsort` reverses the array, runs an ascending
argsort, and reverses the result back, so a stable underlying argsort gives a
stable descending sort; the model uses a stable merge sort.  (The tie order of
the pandas default `kind='quicksort'` above numpy's 16-element insertion-sort
cutoff is not captured by this model.) -/
def rankByScore (rows : List ScoredRow) : List ScoredRow :=
  rows.mergeSort scoreLe

/-- The need-weight vector the scorer uses for a learner, selected by
`use_target_gap`. -/
def needWeightsFor (h : HistTable) (sid : String) (compCols : List String)
    (useTargetGap : Bool) (target : ℚ) : List (String × ℚ) :=
  let levels := profileFor h sid compCols
  if useTargetGap then needWeightsFromTargets levels target
  else needWeightsFromMean levels

/-- The scored catalog after the exclusion step, before ranking. -/
def eligibleRows (p : ProgTable) (h : HistTable) (sid : String)
    (useTargetGap : Bool) (target : ℚ) : List ScoredRow :=
  excludeTaken (takenProgIds h sid)
    (scoredRows p (sharedComps p h)
      (needWeightsFor h sid (sharedComps p h) useTargetGap target))

/-- `score_programs_for_student`: intersection check, profile, need weights,
per-program scores, exclusion of completed programs, descending sort and
truncation to `top_k`.  The program-id and student-id columns are part of the
typed model, so their `None` checks of the source cannot fire here. -/
def scoreProgramsForStudent (p : ProgTable) (h : HistTable) (sid : String)
    (topK : ℕ) (useTargetGap : Bool) (target : ℚ) :
    Except RecError (List ScoredRow) :=
  let compCols := sharedComps p h
  if compCols.isEmpty then .error .emptyIntersection
  else
    match buildStudentProfile h sid compCols with
    | .error e => .error e
    | .ok levels =>
      let needW := if useTargetGap then needWeightsFromTargets levels target
                   else needWeightsFromMean levels
      .ok ((rankByScore
        (excludeTaken (takenProgIds h sid)
          (scoredRows p compCols needW))).take topK)

/-- Whether an engine call returned normally (no exception raised). -/
def resultOk {α : Type} : Except RecError α → Bool
  | .ok _ => true
  | .error _ => false

/-- Two-program catalog used to instantiate theorems at concrete inputs. -/
def progA : ProgTable :=
  ⟨["핵심A"], [⟨"P1", [("핵심A", some 2)]⟩, ⟨"P2", [("핵심A", some 1)]⟩]⟩

/-- History whose only row for learner S1 lacks the completion marker. -/
def histNoMarkerA : HistTable :=
  ⟨true, ["핵심A"], [⟨"S1", "P1", "수강중", [("핵심A", some 3)]⟩]⟩

/-- History in which learner S1 completed program P2. -/
def histCompletedA : HistTable :=
  ⟨true, ["핵심A"], [⟨"S1", "P2", "이수", [("핵심A", some 4)]⟩]⟩

/-- Catalog and history with disjoint competency columns. -/
def histDisjointB : HistTable := ⟨true, ["핵심B"], []⟩

/-- Raw mean-relative weights are clipped at zero, hence non-negative. -/
theorem rawMeanWeights_nonneg (levels : List (String × ℚ)) :
    ∀ cv ∈ rawMeanWeights levels, 0 ≤ cv.2 := by
  intro cv hmem
  simp only [rawMeanWeights, List.mem_map] at hmem
  obtain ⟨ab, _, rfl⟩ := hmem
  exact le_max_left 0 _

/-- Raw target-relative weights are clipped at zero, hence non-negative. -/
theorem rawTargetWeights_nonneg (levels : List (String × ℚ)) (target : ℚ) :
    ∀ cv ∈ rawTargetWeights levels target, 0 ≤ cv.2 := by
  intro cv hmem
  simp only [rawTargetWeights, List.mem_map] at hmem
  obtain ⟨ab, _, rfl⟩ := hmem
  exact le_max_left 0 _

/-- Unfolding of the scorer on the non-error path: when the competency
intersection is non-empty, the call returns the ranked eligible rows
truncated to the top-K. -/
theorem scorer_eq_ranked (p : ProgTable) (h : HistTable) (sid : String)
    (topK : ℕ) (useTargetGap : Bool) (target : ℚ)
    (hcc : sharedComps p h ≠ []) :
    scoreProgramsForStudent p h sid topK useTargetGap target =
      .ok ((rankByScore
        (eligibleRows p h sid useTargetGap target)).take topK) := by
  have hcc' : (sharedComps p h).isEmpty = false :=
    List.isEmpty_eq_false.mpr hcc
  simp only [scoreProgramsForStudent, hcc', Bool.false_eq_true, if_false,
    buildStudentProfile, eligibleRows, needWeightsFor]

/-- The uniform fallback vector sums to the number of competencies. -/
theorem sndSum_uniformOnes (levels : List (String × ℚ)) :
    sndSum (uniformOnes levels) = levels.length := by
  simp only [sndSum, uniformOnes, List.map_map, Function.comp_def]
  rw [List.map_const']
  simp [List.sum_replicate]

/-- Claim C3, counterexample.  On the header list `["학번", "학생ID"]` with
the source's student-id candidate list, `_find_col` returns `학생ID` (the
first candidate found in any column), while a resolver scanning the table's
column order first — as the claim states — would return `학번`, the first
column containing any candidate. -/
theorem findCol_table_order_counterexample :
    findCol ["학번", "학생ID"] ["학생ID", "학번", "이수자ID", "Student", "student"]
        = some "학생ID" ∧
    findColSpec ["학번", "학생ID"]
        ["학생ID", "학번", "이수자ID", "Student", "student"] = some "학번" :=
  ⟨rfl, rfl⟩

/-- Claim C3, amended.  The resolver `_find_col` scans the CANDIDATE list in
order and, for the first candidate that is contained in any column name,
returns the first such column in table column order: candidate-list order has
priority, and table column order only breaks ties between columns matching
that candidate. -/
theorem findCol_candidate_priority (cols cands : List String) :
    findCol cols cands =
      (cands.find? (fun c => cols.any (fun col => strContains col c))).bind
        (fun c => cols.find? (fun col => strContains col c)) := by
  induction cands with
  | nil => rfl
  | cons c cs ih =>
    cases hf : cols.find? (fun col => strContains col c) with
    | some col =>
      have hp : strContains col c := by simpa using List.find?_some hf
      have hm : col ∈ cols := List.mem_of_find?_eq_some hf
      have hany : (cols.any (fun col => strContains col c)) = true :=
        List.any_eq_true.mpr ⟨col, hm, hp⟩
      simp [findCol, hf, List.find?, hany]
    | none =>
      have hany : (cols.any (fun col => strContains col c)) = false := by
        rw [List.any_eq_false]
        intro col hm
        simpa using List.find?_eq_none.mp hf col hm
      simp [findCol, hf, List.find?, hany, ih]

/-- Claim C4, counterexample.  For the one-competency vector with level 5 the
level equals the learner's mean, yet the mean-relative policy assigns weight
1 (the flat-profile uniform fallback), not 0. -/
theorem needWeightsFromMean_flat_profile_counterexample :
    meanLevels [("핵심A", (5 : ℚ))] = 5 ∧
    needWeightsFromMean [("핵심A", (5 : ℚ))] = [("핵심A", (1 : ℚ))] := by
  constructor
  · norm_num [meanLevels, sndSum]
  · norm_num [needWeightsFromMean, rawMeanWeights, uniformOnes, meanLevels,
      sndSum]

/-- Claim C4, amended.  Whenever at least one competency is strictly below
the learner's mean (so that the uniform flat-profile fallback does not fire),
the mean-relative policy assigns weight exactly 0 to every competency whose
level is at or above the mean — in particular to every competency exactly at
the mean. -/
theorem needWeightsFromMean_zero_at_or_above_mean
    (levels : List (String × ℚ))
    (hlt : ∃ cv ∈ levels, cv.2 < meanLevels levels) :
    ∀ cv ∈ levels, meanLevels levels ≤ cv.2 →
      (cv.1, (0 : ℚ)) ∈ needWeightsFromMean levels := by
  intro cv hmem hge
  obtain ⟨dv, hdmem, hdlt⟩ := hlt
  have hdpos : 0 < max 0 (meanLevels levels - dv.2) :=
    lt_max_of_lt_right (by linarith)
  have hdw : (dv.1, max 0 (meanLevels levels - dv.2)) ∈ rawMeanWeights levels :=
    List.mem_map_of_mem _ hdmem
  have hsum : 0 < sndSum (rawMeanWeights levels) := by
    refine lt_of_lt_of_le hdpos ?_
    refine List.single_le_sum (fun x hx => ?_) _ ?_
    · simp only [List.mem_map] at hx
      obtain ⟨ab, habm, rfl⟩ := hx
      exact rawMeanWeights_nonneg levels ab habm
    · exact List.mem_map_of_mem Prod.snd hdw
  have hcond : ¬ (sndSum (rawMeanWeights levels) = 0 ∧ 0 < levels.length) :=
    fun hc => absurd hc.1 (ne_of_gt hsum)
  have hres : needWeightsFromMean levels = rawMeanWeights levels := by
    simp only [needWeightsFromMean]
    exact if_neg hcond
  rw [hres]
  have hcv : (cv.1, max 0 (meanLevels levels - cv.2)) ∈ rawMeanWeights levels :=
    List.mem_map_of_mem _ hmem
  rwa [max_eq_left (by linarith)] at hcv

/-- Claim C4, witness: for levels 1 and 3 the mean is 2, competency B (level
3, above the mean) receives weight 0. -/
theorem needWeightsFromMean_zero_at_or_above_mean_inst :
    (("B", (0 : ℚ)) ∈ needWeightsFromMean [("A", 1), ("B", 3)]) :=
  needWeightsFromMean_zero_at_or_above_mean [("A", 1), ("B", 3)]
    ⟨("A", 1), by decide, by norm_num [meanLevels, sndSum]⟩ ("B", 3)
    (by decide) (by norm_num [meanLevels, sndSum])

/-- Claim C5.  For every competency vector and both policies: the produced
weight vector is element-wise non-negative; when the computed (raw) weights
sum to exactly zero and the keyspace is non-empty the whole vector is the
uniform vector of ones; and the result never sums to zero when at least one
competency is defined. -/
theorem needWeights_nonneg_and_uniform_fallback
    (levels : List (String × ℚ)) (target : ℚ) :
    (∀ cv ∈ needWeightsFromMean levels, 0 ≤ cv.2) ∧
    (∀ cv ∈ needWeightsFromTargets levels target, 0 ≤ cv.2) ∧
    (sndSum (rawMeanWeights levels) = 0 → levels ≠ [] →
      needWeightsFromMean levels = uniformOnes levels) ∧
    (sndSum (rawTargetWeights levels target) = 0 → levels ≠ [] →
      needWeightsFromTargets levels target = uniformOnes levels) ∧
    (levels ≠ [] → sndSum (needWeightsFromMean levels) ≠ 0) ∧
    (levels ≠ [] → sndSum (needWeightsFromTargets levels target) ≠ 0) := by
  have hlen : levels ≠ [] → 0 < levels.length := fun hne =>
    List.length_pos.mpr hne
  have huni : ∀ cv ∈ uniformOnes levels, (0 : ℚ) ≤ cv.2 := by
    intro cv hmem
    simp only [uniformOnes, List.mem_map] at hmem
    obtain ⟨ab, _, rfl⟩ := hmem
    norm_num
  have husum : levels ≠ [] → sndSum (uniformOnes levels) ≠ 0 := by
    intro hne
    rw [sndSum_uniformOnes]
    exact_mod_cast Nat.pos_iff_ne_zero.mp (hlen hne)
  refine ⟨?_, ?_, ?_, ?_, ?_, ?_⟩
  · intro cv hmem
    simp only [needWeightsFromMean] at hmem
    split at hmem
    · exact huni cv hmem
    · exact rawMeanWeights_nonneg levels cv hmem
  · intro cv hmem
    simp only [needWeightsFromTargets] at hmem
    split at hmem
    · exact huni cv hmem
    · exact rawTargetWeights_nonneg levels target cv hmem
  · intro h0 hne
    simp only [needWeightsFromMean]
    exact if_pos ⟨h0, hlen hne⟩
  · intro h0 hne
    simp only [needWeightsFromTargets]
    exact if_pos ⟨h0, hlen hne⟩
  · intro hne
    simp only [needWeightsFromMean]
    split
    · exact husum hne
    · rename_i hcond
      intro h0
      exact hcond ⟨h0, hlen hne⟩
  · intro hne
    simp only [needWeightsFromTargets]
    split
    · exact husum hne
    · rename_i hcond
      intro h0
      exact hcond ⟨h0, hlen hne⟩

/-- Claim C5, witness: a learner with the flat one-competency vector still
gets a weight vector with non-zero sum. -/
theorem needWeights_nonneg_and_uniform_fallback_inst :
    sndSum (needWeightsFromMean [("A", (2 : ℚ))]) ≠ 0 :=
  (needWeights_nonneg_and_uniform_fallback [("A", 2)] 5).2.2.2.2.1
    (by decide)

/-- Claim C6.  When a completion-status column is resolved and the learner
has at least one history row, the profile sums only the rows whose status
contains the completion marker; if no such row exists, the restriction is
skipped and all of the learner's rows are summed. -/
theorem buildStudentProfile_completion_filter (h : HistTable) (sid : String)
    (compCols : List String) (hst : h.hasCompletionCol = true)
    (hne : learnerRows h sid ≠ []) (hcols : compCols ≠ []) :
    ((learnerRows h sid).filter (fun r => hasMarker r.status) ≠ [] →
      buildStudentProfile h sid compCols =
        .ok (sumComps ((learnerRows h sid).filter
          (fun r => hasMarker r.status)) compCols)) ∧
    ((learnerRows h sid).filter (fun r => hasMarker r.status) = [] →
      buildStudentProfile h sid compCols =
        .ok (sumComps (learnerRows h sid) compCols)) := by
  have hc : compCols.isEmpty = false := List.isEmpty_eq_false.mpr hcols
  have hn : (learnerRows h sid).isEmpty = false := List.isEmpty_eq_false.mpr hne
  constructor <;> intro hm <;>
    simp [buildStudentProfile, profileFor, qualifyingRows, hst, hc, hn, hm]

/-- Claim C6, witness: learner S1's single row has status without the marker,
so the restriction is skipped and the all-rows sum is returned. -/
theorem buildStudentProfile_completion_filter_inst :
    buildStudentProfile histNoMarkerA "S1" ["핵심A"] =
      .ok (sumComps (learnerRows histNoMarkerA "S1") ["핵심A"]) :=
  (buildStudentProfile_completion_filter histNoMarkerA "S1" ["핵심A"] rfl
    (by decide) (by decide)).2 (by decide)

/-- Claim C7.  A learner matching zero history rows gets the all-zero profile
over the full competency keyspace (no error), the scorer's need weights for
that learner are the uniform fallback vector, and the scoring call itself
returns normally. -/
theorem scorer_unseen_learner (p : ProgTable) (h : HistTable) (sid : String)
    (topK : ℕ) (target : ℚ)
    (hnone : learnerRows h sid = [])
    (hcc : sharedComps p h ≠ []) :
    buildStudentProfile h sid (sharedComps p h) =
        .ok (zeroProfile (sharedComps p h)) ∧
    needWeightsFor h sid (sharedComps p h) false target =
        uniformOnes (zeroProfile (sharedComps p h)) ∧
    resultOk (scoreProgramsForStudent p h sid topK false target) = true := by
  have hc : (sharedComps p h).isEmpty = false := List.isEmpty_eq_false.mpr hcc
  have hprof : profileFor h sid (sharedComps p h) =
      zeroProfile (sharedComps p h) := by
    simp [profileFor, hnone]
  have hzero : ∀ cv ∈ zeroProfile (sharedComps p h), cv.2 = (0 : ℚ) := by
    intro cv hmem
    simp only [zeroProfile, List.mem_map] at hmem
    obtain ⟨c, _, rfl⟩ := hmem
    rfl
  have hzsum : sndSum (zeroProfile (sharedComps p h)) = 0 := by
    simp only [sndSum, zeroProfile, List.map_map, Function.comp_def]
    rw [List.map_const']
    simp
  have hzne : zeroProfile (sharedComps p h) ≠ [] := by
    simp [zeroProfile, hcc]
  have hmu : meanLevels (zeroProfile (sharedComps p h)) = 0 := by
    simp [meanLevels, hzsum]
  have hraw : sndSum (rawMeanWeights (zeroProfile (sharedComps p h))) = 0 := by
    have h1 : rawMeanWeights (zeroProfile (sharedComps p h)) =
        (zeroProfile (sharedComps p h)).map
          (fun cv => (cv.1, max 0 (0 - cv.2))) := by
      simp only [rawMeanWeights, hmu]
    have h2 : (zeroProfile (sharedComps p h)).map
        (fun cv => (cv.1, max 0 (0 - cv.2))) =
          zeroProfile (sharedComps p h) := by
      simp only [zeroProfile, List.map_map, Function.comp_def]
      simp
    rw [h1, h2, hzsum]
  have hw : needWeightsFromMean (zeroProfile (sharedComps p h)) =
      uniformOnes (zeroProfile (sharedComps p h)) := by
    simp only [needWeightsFromMean]
    exact if_pos ⟨hraw, List.length_pos.mpr hzne⟩
  refine ⟨?_, ?_, ?_⟩
  · simp [buildStudentProfile, hc, hprof]
  · simp [needWeightsFor, hprof, hw]
  · rw [scorer_eq_ranked p h sid topK false target hcc]
    rfl

/-- Claim C7, witness: learner S9 has no rows in the example history, and the
scoring call returns normally. -/
theorem scorer_unseen_learner_inst :
    resultOk (scoreProgramsForStudent progA histCompletedA "S9" 5 false 5)
      = true :=
  (scorer_unseen_learner progA histCompletedA "S9" 5 5 (by decide)
    (by decide)).2.2

/-- Claim C1.  No program whose identifier is in the learner's completed set
survives the exclusion step, and hence none appears anywhere in the scorer's
output, for any top-K: exclusion is applied to the scored table before
sorting and truncation. -/
theorem scorer_excludes_completed (p : ProgTable) (h : HistTable)
    (sid : String) (topK : ℕ) (useTargetGap : Bool) (target : ℚ) :
    (∀ r ∈ eligibleRows p h sid useTargetGap target,
        r.pid ∉ takenProgIds h sid) ∧
    (∀ out, scoreProgramsForStudent p h sid topK useTargetGap target
        = .ok out → ∀ r ∈ out, r.pid ∉ takenProgIds h sid) := by
  have helig : ∀ r ∈ eligibleRows p h sid useTargetGap target,
      r.pid ∉ takenProgIds h sid := by
    intro r hmem hin
    by_cases hemp : takenProgIds h sid = []
    · rw [hemp] at hin
      exact List.not_mem_nil _ hin
    · have hemp' : (takenProgIds h sid).isEmpty = false :=
        List.isEmpty_eq_false.mpr hemp
      rw [eligibleRows, excludeTaken, hemp'] at hmem
      simp only [Bool.false_eq_true, if_false, List.mem_filter,
        Bool.not_eq_eq_eq_not, Bool.not_true] at hmem
      have hc : (takenProgIds h sid).contains r.pid = true := by
        have : (takenProgIds h sid).elem r.pid = true :=
          List.elem_iff.mpr hin
        simpa [List.contains] using this
      rw [hmem.2] at hc
      cases hc
  refine ⟨helig, ?_⟩
  intro out hout r hmem
  by_cases hcc : sharedComps p h = []
  · rw [scoreProgramsForStudent] at hout
    simp [hcc] at hout
  · rw [scorer_eq_ranked p h sid topK useTargetGap target hcc] at hout
    cases hout
    have h1 : r ∈ rankByScore (eligibleRows p h sid useTargetGap target) :=
      List.mem_of_mem_take hmem
    have h2 : r ∈ eligibleRows p h sid useTargetGap target := by
      rw [rankByScore] at h1
      exact List.mem_mergeSort.mp h1
    exact helig r h2

/-- Claim C1, witness: learner S1 completed P2, and P2 does not appear among
the eligible scored rows of the example catalog. -/
theorem scorer_excludes_completed_inst :
    "P2" ∉ (eligibleRows progA histCompletedA "S1" false 5).map
      ScoredRow.pid := by
  intro hmem
  obtain ⟨r, hr, hpid⟩ := List.mem_map.mp hmem
  exact (scorer_excludes_completed progA histCompletedA "S1" 5 false 5).1 r hr
    (by rw [hpid]; decide)

/-- Claim C8.  The output has exactly `min K (number of eligible rows)` rows,
and for every larger K2 the first K rows of the K2-result equal the K-result
(prefix stability). -/
theorem scorer_topK_length_and_prefix (p : ProgTable) (h : HistTable)
    (sid : String) (useTargetGap : Bool) (target : ℚ) (K : ℕ)
    (hcc : sharedComps p h ≠ []) :
    ∃ out, scoreProgramsForStudent p h sid K useTargetGap target = .ok out ∧
      out.length = min K (eligibleRows p h sid useTargetGap target).length ∧
      ∀ K2 : ℕ, K ≤ K2 →
        ∃ out2,
          scoreProgramsForStudent p h sid K2 useTargetGap target = .ok out2 ∧
          out2.take K = out := by
  refine ⟨_, scorer_eq_ranked p h sid K useTargetGap target hcc, ?_, ?_⟩
  · rw [List.length_take, rankByScore, List.length_mergeSort]
  · intro K2 hK
    refine ⟨_, scorer_eq_ranked p h sid K2 useTargetGap target hcc, ?_⟩
    rw [List.take_take, Nat.min_eq_left hK]

/-- Claim C8, witness: the example call with K = 1 returns normally. -/
theorem scorer_topK_length_and_prefix_inst :
    resultOk (scoreProgramsForStudent progA histCompletedA "S1" 1 false 5)
      = true := by
  obtain ⟨out, hout, -, -⟩ := scorer_topK_length_and_prefix progA
    histCompletedA "S1" false 5 1 (by decide)
  rw [hout]
  rfl

/-- Claim C9.  When catalog and history share no competency columns the
scorer raises the empty-intersection error; the check sits before profile
building and scoring, so the error is independent of the learner and of the
history rows. -/
theorem scorer_empty_intersection_fail_fast (p : ProgTable) (h : HistTable)
    (sid : String) (topK : ℕ) (useTargetGap : Bool) (target : ℚ)
    (hcc : sharedComps p h = []) :
    scoreProgramsForStudent p h sid topK useTargetGap target =
      .error .emptyIntersection := by
  simp [scoreProgramsForStudent, hcc]

/-- Claim C9, witness: the example tables with disjoint competency columns
produce the empty-intersection error. -/
theorem scorer_empty_intersection_fail_fast_inst :
    scoreProgramsForStudent progA histDisjointB "S1" 3 false 5 =
      .error .emptyIntersection :=
  scorer_empty_intersection_fail_fast progA histDisjointB "S1" 3 false 5
    (by decide)

/-- Claim C10.  When no completion-status column is resolved, or none of the
learner's rows carries the completion marker, the completed-item set is empty
and the exclusion step removes nothing: the eligible rows are exactly the
scored catalog rows.  Unlike the profile builder, the exclusion step has no
all-rows fallback. -/
theorem exclusion_no_marker_no_fallback (h : HistTable) (sid : String)
    (hcase : h.hasCompletionCol = false ∨
      ∀ r ∈ learnerRows h sid, hasMarker r.status = false) :
    takenProgIds h sid = [] ∧
    ∀ (p : ProgTable) (useTargetGap : Bool) (target : ℚ),
      eligibleRows p h sid useTargetGap target =
        scoredRows p (sharedComps p h)
          (needWeightsFor h sid (sharedComps p h) useTargetGap target) := by
  have htaken : takenProgIds h sid = [] := by
    cases hcase with
    | inl hfalse => simp [takenProgIds, hfalse]
    | inr hnone =>
      rw [takenProgIds]
      split
      · have hfil : (learnerRows h sid).filter
            (fun r => hasMarker r.status) = [] := by
          rw [List.filter_eq_nil_iff]
          intro r hr
          simp [hnone r hr]
        rw [hfil]
        rfl
      · rfl
  refine ⟨htaken, ?_⟩
  intro p useTargetGap target
  rw [eligibleRows, htaken, excludeTaken]
  rfl

/-- Claim C10, witness: learner S1's only history row (program P1) lacks the
marker, the completed set is empty, and P1 itself remains among the eligible
scored rows — the learner can be recommended the very item in their
history. -/
theorem exclusion_no_marker_no_fallback_inst :
    takenProgIds histNoMarkerA "S1" = [] ∧
    "P1" ∈ (eligibleRows progA histNoMarkerA "S1" false 5).map
      ScoredRow.pid :=
  ⟨(exclusion_no_marker_no_fallback histNoMarkerA "S1"
      (Or.inr (by decide))).1,
   by decide⟩

end SMData
